import Mathlib

/-!
Shallow embedding of the map-search enrichment pipeline
(location_analyzer.py and usaspending_api.py): the in-memory cache with its
bust-cache mode, the retrying search client, the contract client with its
ZIP-prefix locality filter, the cache-key derivation, the query builder and
the contract aggregation, together with the theorems settling the frozen
claims about them.
-/

namespace MapSearch

/-- Raw organic search result as delivered by the search provider; every
field may be absent, which the source defaults to the empty string via
result.get with a default. -/
structure RawResult where
  title : Option String
  link : Option String
  snippet : Option String
deriving DecidableEq

/-- Formatted search result as built by the search client and stored in the
cache (location_analyzer.py, the formatted_results loop). -/
structure SearchResult where
  title : String
  link : String
  body : String
deriving DecidableEq

/-- Reshapes one raw provider result into the internal shape, defaulting
absent fields to the empty string. -/
def formatResult (r : RawResult) : SearchResult :=
  ⟨r.title.getD "", r.link.getD "", r.snippet.getD ""⟩

/-- Reshapes a whole organic_results array. -/
def formatResults (rs : List RawResult) : List SearchResult :=
  rs.map formatResult

/-- One in-memory cache: an association list where the first binding for a
key wins, modelling the python dict loaded from one JSON file. -/
def cacheLookup {α : Type} (cache : List (String × α)) (key : String) : Option α :=
  match cache with
  | [] => none
  | (k, v) :: rest => if k = key then some v else cacheLookup rest key

/-- Updates the binding for a key in place, or appends a new binding,
modelling assignment into a python dict. -/
def cacheInsert {α : Type} (key : String) (v : α) : List (String × α) → List (String × α)
  | [] => [(key, v)]
  | (k, w) :: rest =>
    if k = key then (key, v) :: rest else (k, w) :: cacheInsert key v rest

/-- Loading of the durable search cache at startup (location_analyzer.py,
load_cache): when bust-cache mode is active the stored entries are ignored
and the in-memory cache starts empty; otherwise the stored mapping is
loaded. The error branch of the source also yields the empty mapping. -/
def load_cache {α : Type} (bust : Bool) (stored : List (String × α)) : List (String × α) :=
  if bust then [] else stored

/-- Decides whether the character list pat occurs at the start of the
second list. -/
def isPrefixList : List Char → List Char → Bool
  | [], _ => true
  | _ :: _, [] => false
  | a :: as, b :: bs => a == b && isPrefixList as bs

/-- Decides whether pat occurs contiguously anywhere in the second list. -/
def hasSubstr (pat : List Char) : List Char → Bool
  | [] => isPrefixList pat []
  | c :: rest => isPrefixList pat (c :: rest) || hasSubstr pat rest

/-- Lowercases one character, modelling the ASCII fragment of the python
str.lower used by the classifier; the searched pattern is pure ASCII, so
only this fragment can influence a match boundary character. -/
def lowerChar (c : Char) : Char :=
  if 65 ≤ c.toNat ∧ c.toNat ≤ 90 then Char.ofNat (c.toNat + 32) else c

/-- Terminal-error classifier of the search client: the source checks
whether the lowercased text of the raised error contains the word quota
(location_analyzer.py, the retry loop). -/
def isQuotaError (msg : String) : Bool :=
  hasSubstr "quota".data (msg.data.map lowerChar)

/-- Outcome of one network attempt of the search client: either the parsed
organic results of a 200 response, or the message of the raised exception
(non-200 responses raise inside the try block in the source). -/
inductive AttemptResult where
  | ok (results : List RawResult)
  | err (msg : String)
deriving DecidableEq

/-- Observable outcome of one call to the search client: the returned
result list, the in-memory cache afterwards, how many network attempts were
made, the backoff delays slept in order, and whether the cache was written
to the durable store. -/
structure RetryResult where
  results : List SearchResult
  cache : List (String × List SearchResult)
  attemptsMade : Nat
  delays : List Nat
  cacheSaved : Bool
deriving DecidableEq

/-- The attempt loop of search_with_retry (location_analyzer.py): on a
successful attempt the formatted results are cached, saved and returned; on
a quota-classified error the empty list is returned immediately; on any
other error the client sleeps baseDelay times 2 to the attempt index and
retries; when the configured attempts are exhausted the empty list is
returned. idx is the index of the next attempt, fuel the attempts left. -/
def runAttempts (att : Nat → AttemptResult) (baseDelay : Nat) (key : String)
    (cache : List (String × List SearchResult)) : Nat → Nat → RetryResult
  | _, 0 => ⟨[], cache, 0, [], false⟩
  | idx, fuel + 1 =>
    match att idx with
    | .ok rs =>
      let fr := formatResults rs
      ⟨fr, cacheInsert key fr cache, 1, [], true⟩
    | .err msg =>
      if isQuotaError msg then ⟨[], cache, 1, [], false⟩
      else
        let rest := runAttempts att baseDelay key cache (idx + 1) fuel
        ⟨rest.results, rest.cache, rest.attemptsMade + 1,
          baseDelay * 2 ^ idx :: rest.delays, rest.cacheSaved⟩

/-- search_with_retry (location_analyzer.py): unless bust-cache mode is
active, a cached entry for the key is returned with no network attempt;
otherwise the attempt loop runs with the configured ceiling. -/
def search_with_retry (bust : Bool) (maxRetries baseDelay : Nat)
    (cache : List (String × List SearchResult)) (key : String)
    (att : Nat → AttemptResult) : RetryResult :=
  if !bust then
    match cacheLookup cache key with
    | some v => ⟨v, cache, 0, [], false⟩
    | none => runAttempts att baseDelay key cache 0 maxRetries
  else runAttempts att baseDelay key cache 0 maxRetries

/-- Default attempt ceiling set in the constructor of LocationAnalyzer. -/
def max_retries : Nat := 3

/-- Default backoff base set in the constructor of LocationAnalyzer. -/
def base_delay : Nat := 2

/-- The exact sequence of backoff delays produced by a run of retryable
failures starting at attempt index idx with the given attempts left. -/
def geomDelays (baseDelay : Nat) : Nat → Nat → List Nat
  | _, 0 => []
  | idx, fuel + 1 => baseDelay * 2 ^ idx :: geomDelays baseDelay (idx + 1) fuel

/-- Rounding of a rational to four decimal places, as an integer count of
ten-thousandths: the scaled value plus one half, floored. This models the
rounding performed by the python format specifier with precision four; note
the source formats binary floats with round-half-even, which coincides with
this model except on exact five-in-the-last-place ties. -/
def roundTo4 (x : ℚ) : ℤ := Rat.floor (x * 10000 + mkRat 1 2)

/-- Left-pads the decimal digits of k to width four with zeros; used for
the fractional part of the four-decimal format. -/
def pad4 (k : Nat) : String :=
  (if k < 10 then "000" else if k < 100 then "00" else if k < 1000 then "0" else "") ++
    toString k

/-- Renders a count of ten-thousandths as a fixed four-decimal numeral. -/
def format4Int (n : ℤ) : String :=
  (if n < 0 then "-" else "") ++ toString (n.natAbs / 10000) ++ "." ++ pad4 (n.natAbs % 10000)

/-- Fixed four-decimal rendering of a rational, modelling the python format
specifier with precision four applied to a coordinate. -/
def format4 (x : ℚ) : String := format4Int (roundTo4 x)

/-- Decimal rendering of a rational, modelling the python repr of a float
inside an f-string: a fixed injective textual representation of the numeric
value, with no rounding applied. -/
def ratRepr (x : ℚ) : String := toString x

/-- get_cache_key of the contract client (usaspending_api.py): latitude and
longitude formatted at four decimal places, concatenated with the
configured search radius. -/
def get_cache_key (lat lon radius : ℚ) : String :=
  format4 lat ++ "_" ++ format4 lon ++ "_" ++ ratRepr radius

/-- Hex digest model standing in for the md5 hexdigest of hashlib used by
generate_cache_key: each character is rendered as its base-16 code point
followed by a separator, so the digest is injective. The spec describes the
digest as collision resistant, and the claims about key identity and key
distinctness depend only on the fingerprinted string, so an injective
digest is the faithful model of that assumption. -/
def digest (s : String) : String :=
  String.join (s.data.map (fun c => String.mk (Nat.toDigits 16 c.toNat) ++ "."))

/-- Coordinate suffix of the search cache key (location_analyzer.py,
generate_cache_key): empty when the location has no coordinates, else the
two components at full precision, each preceded by an underscore. -/
def coordsSuffix : Option (ℚ × ℚ) → String
  | none => ""
  | some (lat, lon) => "_" ++ ratRepr lat ++ "_" ++ ratRepr lon

/-- generate_cache_key of the search client (location_analyzer.py): the
digest of the query string concatenated with the coordinate suffix. -/
def generate_cache_key (query : String) (coords : Option (ℚ × ℚ)) : String :=
  digest (query ++ coordsSuffix coords)

/-- Fixed stopword set of the query builder (location_analyzer.py,
generate_search_queries). -/
def stopwords : List String := ["the", "and", "test", "model", "city"]

/-- Lowercases a whole word through the ASCII model of str.lower; the
stopwords it is compared against are pure ASCII. -/
def lowerStr (w : String) : String := String.mk (w.data.map lowerChar)

/-- Whitespace tokenization of a location name, modelling the python
argumentless str.split: maximal runs of non-whitespace characters. -/
def nameTokens (location_name : String) : List String :=
  (location_name.split (fun c => c.isWhitespace)).filter (fun w => w != "")

/-- The meaningful words of a location name: tokens longer than two
characters whose lowercasing is not a stopword, in order. -/
def meaningfulWords (location_name : String) : List String :=
  (nameTokens location_name).filter
    (fun w => decide (2 < w.length) && !(stopwords.contains (lowerStr w)))

/-- generate_search_queries (location_analyzer.py): one query built from
the first two meaningful words, or the single meaningful word, or the raw
name, with the fixed jurisdiction qualifier appended. -/
def generate_search_queries (location_name : String) : List String :=
  let words := meaningfulWords location_name
  let main_query :=
    match words with
    | [] => location_name
    | [w] => w
    | w0 :: w1 :: _ => w0 ++ " " ++ w1
  [main_query ++ " Nevada"]

/-- Query construction exactly as the claim words it: extract the name
tokens longer than two characters, discard the fixed stopword set, take the
first two remaining tokens (or the single remaining token, or the raw name
if none qualify), and append the fixed jurisdiction qualifier. -/
def claimQueryC9 (location_name : String) : String :=
  let remaining :=
    ((nameTokens location_name).filter (fun w => decide (2 < w.length))).filter
      (fun w => !(stopwords.contains (lowerStr w)))
  (match remaining.take 2 with
   | [w0, w1] => w0 ++ " " ++ w1
   | [w] => w
   | _ => location_name) ++ " Nevada"

/-- Contract record as consumed by the embedded operations: the locality
filter reads the place-of-performance ZIP, the aggregation reads the
recipient name and the award amount. The remaining provider fields (award
id, dates, description, agencies) do not influence any embedded logic and
are elided. -/
structure ContractRecord where
  recipientName : String
  awardAmount : ℚ
  zip : String
deriving DecidableEq

/-- ZIP-prefix allow-list of the locality filter (usaspending_api.py,
search_contracts_by_location). -/
def zipAllowList : List String := ["890", "891", "893", "894", "895", "889"]

/-- First three characters of a ZIP string, modelling the python slice of
the first three characters. -/
def zip3 (z : String) : String := String.mk (z.data.take 3)

/-- Keep decision of the locality filter: the source skips a record whose
ZIP is missing or shorter than three characters and keeps a record exactly
when its three-character prefix is in the allow-list. -/
def keepsRecord (r : ContractRecord) : Bool :=
  decide (3 ≤ r.zip.data.length) && zipAllowList.contains (zip3 r.zip)

/-- Client-side locality filter applied to the raw provider results before
caching and analysis. -/
def filterByZip (rs : List ContractRecord) : List ContractRecord :=
  rs.filter keepsRecord

/-- Network outcome of one contract search: a response with its HTTP
status and parsed results, or a raised request exception. -/
inductive ContractResponse where
  | response (status : Nat) (results : List ContractRecord)
  | requestException (msg : String)
deriving DecidableEq

/-- Observable outcome of one call to the contract client: the returned
records, the in-memory cache afterwards, whether the network was reached,
and whether the cache was written to the durable store. -/
structure ContractFetchResult where
  results : List ContractRecord
  cache : List (String × List ContractRecord)
  networkCalled : Bool
  cacheSaved : Bool
deriving DecidableEq

/-- Network-and-filter phase of search_contracts_by_location: a non-200
status returns the empty list with no cache write; a 200 response is
filtered by ZIP prefix, cached under the key, saved and returned; a request
exception returns the empty list with no cache write. -/
def fetchContracts (cache : List (String × List ContractRecord)) (key : String) :
    ContractResponse → ContractFetchResult
  | .response status results =>
    if status ≠ 200 then ⟨[], cache, true, false⟩
    else
      let filtered := filterByZip results
      ⟨filtered, cacheInsert key filtered cache, true, true⟩
  | .requestException _ => ⟨[], cache, true, false⟩

/-- search_contracts_by_location (usaspending_api.py): unless bust-cache is
requested, a cached entry for the location key is returned without a
network call; otherwise the network phase runs. -/
def search_contracts_by_location (bust : Bool)
    (cache : List (String × List ContractRecord)) (lat lon radius : ℚ)
    (resp : ContractResponse) : ContractFetchResult :=
  let key := get_cache_key lat lon radius
  if !bust then
    match cacheLookup cache key with
    | some v => ⟨v, cache, false, false⟩
    | none => fetchContracts cache key resp
  else fetchContracts cache key resp

/-- Recipient names of a record list in first-encountered order, each
once; the grouping keys of the aggregation. -/
def uniqueNames : List ContractRecord → List String
  | [] => []
  | r :: rs => r.recipientName :: (uniqueNames rs).filter (fun n => n != r.recipientName)

/-- Grouped sum of the aggregation: the total award amount over the
records of one recipient, in record order. -/
def sumFor (rs : List ContractRecord) (n : String) : ℚ :=
  ((rs.filter (fun r => r.recipientName == n)).map ContractRecord.awardAmount).sum

/-- Lexicographic strict order on character lists by code point; the order
python uses to compare the recipient-name strings when the grouping sorts
its keys. -/
def ltChars : List Char → List Char → Bool
  | _, [] => false
  | [], _ :: _ => true
  | a :: as, b :: bs =>
    if a.toNat < b.toNat then true
    else if b.toNat < a.toNat then false
    else ltChars as bs

/-- Code-point lexicographic strict order on strings. -/
def strLt (a b : String) : Bool := ltChars a.data b.data

/-- Insertion into a list sorted ascending by name. -/
def insertAsc (x : String) : List String → List String
  | [] => [x]
  | y :: ys => if strLt x y then x :: y :: ys else y :: insertAsc x ys

/-- Ascending name sort, modelling the sorted group keys the aggregation
produces when grouping by recipient name. -/
def sortNames : List String → List String
  | [] => []
  | x :: xs => insertAsc x (sortNames xs)

/-- The grouped series of the aggregation: one pair per distinct recipient,
keyed and ordered by ascending recipient name, valued by the grouped sum,
modelling the sorted-by-key grouped sum the dataframe grouping returns. -/
def groupedSeries (rs : List ContractRecord) : List (String × ℚ) :=
  (sortNames (uniqueNames rs)).map (fun n => (n, sumFor rs n))

/-- Stable insertion into a list sorted descending by value: the inserted
pair goes before the first pair whose value does not exceed it, so earlier
pairs stay before later pairs of equal value. -/
def insertDesc (x : String × ℚ) : List (String × ℚ) → List (String × ℚ)
  | [] => [x]
  | y :: ys => if y.2 ≤ x.2 then x :: y :: ys else y :: insertDesc x ys

/-- Stable descending sort by value, modelling the selection of the
largest grouped sums with first occurrences kept on ties: the n largest of
a series are the first n entries of its stable descending sort. -/
def sortDesc : List (String × ℚ) → List (String × ℚ)
  | [] => []
  | x :: xs => insertDesc x (sortDesc xs)

/-- Top contractors of the aggregation: the five largest entries of the
grouped series in the order the stable descending sort of that
name-sorted series yields. -/
def topContractors (rs : List ContractRecord) : List (String × ℚ) :=
  (sortDesc (groupedSeries rs)).take 5

/-- Total award amount over a record list. -/
def totalValue (contracts : List ContractRecord) : ℚ :=
  (contracts.map ContractRecord.awardAmount).sum

/-- Left-pads the decimal digits of k to width two with a zero; the cent
part of the money format. -/
def pad2 (k : Nat) : String := (if k < 10 then "0" else "") ++ toString k

/-- Inserts a separator after every third character of a reversed digit
list when more digits remain; the thousands grouping of the money format,
applied to reversed digits. -/
def commaRev : List Char → List Char
  | a :: b :: c :: d :: rest => a :: b :: c :: ',' :: commaRev (d :: rest)
  | l => l

/-- Rounding of a rational amount to a count of cents; models the cent
rounding of the python two-decimal money format, up to the same tie
convention caveat as the coordinate rounding. -/
def roundCents (v : ℚ) : ℤ := Rat.floor (v * 100 + mkRat 1 2)

/-- Renders an amount with thousands separators and two decimals,
modelling the python format specifier with comma grouping and precision
two. -/
def moneyFormat (v : ℚ) : String :=
  let cents := roundCents v
  let sign := if cents < 0 then "-" else ""
  let m := cents.natAbs
  let grouped := String.mk ((commaRev (toString (m / 100)).data.reverse).reverse)
  sign ++ grouped ++ "." ++ pad2 (m % 100)

/-- Result record of analyze_contracts (usaspending_api.py). -/
structure ContractAnalysis where
  total_contracts : Nat
  total_value : ℚ
  top_contractors : List (String × ℚ)
  summary : String
deriving DecidableEq

/-- analyze_contracts (usaspending_api.py): the empty input yields the
fixed empty analysis; a non-empty input yields the record count, the total
award amount, the top five grouped recipients and a digest line. -/
def analyze_contracts : List ContractRecord → ContractAnalysis
  | [] => ⟨0, 0, [], "No contracts found in this area."⟩
  | c :: cs =>
    ⟨(c :: cs).length, totalValue (c :: cs), topContractors (c :: cs),
      "Found " ++ toString (c :: cs).length ++ " contracts worth $" ++
        moneyFormat (totalValue (c :: cs))⟩

/-- Top-contractor selection exactly as the claim words it: the five
largest recipients by summed amount with ties broken by the
first-encountered order of the recipients in the input list, modelled by
the stable descending sort of the grouped sums listed in first-encountered
order. -/
def topContractorsFirstSeen (rs : List ContractRecord) : List (String × ℚ) :=
  (sortDesc ((uniqueNames rs).map (fun n => (n, sumFor rs n)))).take 5

/-- Per-location outcome of the orchestration layer: either the analysis
fields, or the degraded record carrying the error text. -/
structure LocationOutcome where
  error : Option String
  total_contracts : Nat
  total_value : ℚ
  top_contractors : List (String × ℚ)
  summary : String
deriving DecidableEq

/-- The degraded-but-valid summary the orchestration layer substitutes for
a failed location (location_analyzer.py, analyze_contracts). -/
def degradedOutcome (e : String) : LocationOutcome :=
  ⟨some e, 0, 0, [], "Error analyzing contracts for this location."⟩

/-- Orchestration of one location (location_analyzer.py,
analyze_contracts): the enrichment step either returns an analysis or
raises, and a raised error is caught and converted into the degraded
outcome instead of propagating. -/
def analyze_contracts_for_location : Except String ContractAnalysis → LocationOutcome
  | .ok a => ⟨none, a.total_contracts, a.total_value, a.top_contractors, a.summary⟩
  | .error e => degradedOutcome e

/-- The batch loop: every location is processed and contributes exactly one
outcome, in order. -/
def processLocations (steps : List (Except String ContractAnalysis)) : List LocationOutcome :=
  steps.map analyze_contracts_for_location

/-- The order in which the stable descending sort arranges two entries of
a name-sorted series: strictly larger value first, and ascending name on
equal values. -/
def pairBefore (a b : String × ℚ) : Prop :=
  b.2 < a.2 ∨ (a.2 = b.2 ∧ strLt a.1 b.1 = true)

/-- Concrete record list refuting the first-encountered tie-break: the two
recipients tied at one hundred appear with the later-alphabetical one
first. -/
def exC3 : List ContractRecord :=
  [⟨"zephyr", 100, "89101"⟩, ⟨"apex", 100, "89101"⟩, ⟨"basin", 500, "89101"⟩,
   ⟨"crest", 400, "89101"⟩, ⟨"delta", 300, "89101"⟩, ⟨"ember", 200, "89101"⟩]

theorem length_geomDelays (baseDelay : Nat) :
    ∀ fuel idx, (geomDelays baseDelay idx fuel).length = fuel := by
  intro fuel
  induction fuel with
  | zero => intro idx; rfl
  | succ n ih => intro idx; simp [geomDelays, ih]

theorem getElem?_geomDelays (baseDelay : Nat) :
    ∀ fuel idx n, n < fuel →
      (geomDelays baseDelay idx fuel)[n]? = some (baseDelay * 2 ^ (idx + n)) := by
  intro fuel
  induction fuel with
  | zero => intro idx n h; omega
  | succ f ih =>
    intro idx n h
    cases n with
    | zero => simp [geomDelays]
    | succ m =>
      have hm : m < f := by omega
      have := ih (idx + 1) m hm
      simp only [geomDelays, List.getElem?_cons_succ, this]
      have : idx + 1 + m = idx + (m + 1) := by omega
      rw [this]

theorem chain'_le_geomDelays (baseDelay : Nat) :
    ∀ fuel idx, List.Chain' (· ≤ ·) (geomDelays baseDelay idx fuel) := by
  intro fuel
  induction fuel with
  | zero => intro idx; simp [geomDelays]
  | succ f ih =>
    intro idx
    cases f with
    | zero => simp [geomDelays]
    | succ g =>
      have hd : baseDelay * 2 ^ idx ≤ baseDelay * 2 ^ (idx + 1) :=
        Nat.mul_le_mul_left _ (Nat.pow_le_pow_right (by omega) (by omega))
      simpa [geomDelays] using ⟨hd, by simpa [geomDelays] using ih (idx + 1)⟩

theorem runAttempts_allRetryable (att : Nat → AttemptResult) (baseDelay : Nat)
    (key : String) (cache : List (String × List SearchResult))
    (h : ∀ i, ∃ m, att i = .err m ∧ isQuotaError m = false) :
    ∀ fuel idx, runAttempts att baseDelay key cache idx fuel =
      ⟨[], cache, fuel, geomDelays baseDelay idx fuel, false⟩ := by
  intro fuel
  induction fuel with
  | zero => intro idx; rfl
  | succ f ih =>
    intro idx
    obtain ⟨m, hm, hq⟩ := h idx
    simp [runAttempts, hm, hq, ih (idx + 1), geomDelays]

theorem runAttempts_noSuccess (att : Nat → AttemptResult) (baseDelay : Nat)
    (key : String) (cache : List (String × List SearchResult))
    (h : ∀ i rs, att i ≠ .ok rs) :
    ∀ fuel idx, (runAttempts att baseDelay key cache idx fuel).results = [] ∧
      (runAttempts att baseDelay key cache idx fuel).cache = cache ∧
      (runAttempts att baseDelay key cache idx fuel).cacheSaved = false := by
  intro fuel
  induction fuel with
  | zero => intro idx; exact ⟨rfl, rfl, rfl⟩
  | succ f ih =>
    intro idx
    cases hatt : att idx with
    | ok rs => exact absurd hatt (h idx rs)
    | err m =>
      by_cases hq : isQuotaError m = true
      · simp [runAttempts, hatt, hq]
      · obtain ⟨h1, h2, h3⟩ := ih (idx + 1)
        simp [runAttempts, hatt, hq, h1, h2, h3]

/-- C1: for every query whose every attempt fails with a retryable error,
the search client performs exactly the configured maximum number of
attempts and then returns the empty result set, with the delay slept after
attempt index n (hence before attempt n+1) equal to baseDelay times 2 to
the n, so the delays are non-decreasing across attempts. The query must
miss the cache, since a cached query performs no attempt at all. -/
theorem C1_retry_ceiling (maxRetries baseDelay : Nat)
    (cache : List (String × List SearchResult)) (key : String)
    (att : Nat → AttemptResult)
    (hmiss : cacheLookup cache key = none)
    (hfail : ∀ i, ∃ m, att i = .err m ∧ isQuotaError m = false) :
    (search_with_retry false maxRetries baseDelay cache key att).results = [] ∧
    (search_with_retry false maxRetries baseDelay cache key att).attemptsMade = maxRetries ∧
    (search_with_retry false maxRetries baseDelay cache key att).delays.length = maxRetries ∧
    (∀ n, n < maxRetries →
      (search_with_retry false maxRetries baseDelay cache key att).delays[n]? =
        some (baseDelay * 2 ^ n)) ∧
    List.Chain' (· ≤ ·) (search_with_retry false maxRetries baseDelay cache key att).delays := by
  have hrun := runAttempts_allRetryable att baseDelay key cache hfail maxRetries 0
  simp only [search_with_retry, Bool.not_false, if_pos rfl, hmiss, hrun]
  refine ⟨rfl, rfl, length_geomDelays baseDelay maxRetries 0, ?_, chain'_le_geomDelays baseDelay maxRetries 0⟩
  intro n hn
  simpa using getElem?_geomDelays baseDelay maxRetries 0 n hn

/-- Witness for C1 at the defaults of the source: an empty cache, three
attempts, base delay two, every attempt raising a retryable error. -/
theorem C1_retry_ceiling_witness :
    cacheLookup ([] : List (String × List SearchResult)) "k" = none ∧
    (∀ i : Nat, ∃ m, (fun _ => AttemptResult.err "boom") i = .err m ∧ isQuotaError m = false) ∧
    ((search_with_retry false max_retries base_delay [] "k" (fun _ => .err "boom")).results = [] ∧
     (search_with_retry false max_retries base_delay [] "k" (fun _ => .err "boom")).attemptsMade = max_retries ∧
     (search_with_retry false max_retries base_delay [] "k" (fun _ => .err "boom")).delays.length = max_retries ∧
     (∀ n, n < max_retries →
       (search_with_retry false max_retries base_delay [] "k" (fun _ => .err "boom")).delays[n]? =
         some (base_delay * 2 ^ n)) ∧
     List.Chain' (· ≤ ·) (search_with_retry false max_retries base_delay [] "k" (fun _ => .err "boom")).delays) := by
  refine ⟨rfl, fun i => ⟨"boom", rfl, by decide⟩, ?_⟩
  exact C1_retry_ceiling max_retries base_delay [] "k" (fun _ => .err "boom") rfl
    (fun i => ⟨"boom", rfl, by decide⟩)

/-- C2: for every request whose first attempt fails with an error text the
quota classifier recognises, the search client returns the empty result set
immediately: exactly one attempt, no backoff delay, and no cache write. The
request must miss the cache so that an attempt happens at all. -/
theorem C2_quota_terminal (maxRetries baseDelay : Nat)
    (cache : List (String × List SearchResult)) (key : String)
    (att : Nat → AttemptResult) (m : String)
    (hmiss : cacheLookup cache key = none)
    (h0 : att 0 = .err m)
    (hq : isQuotaError m = true)
    (hr : 1 ≤ maxRetries) :
    search_with_retry false maxRetries baseDelay cache key att =
      ⟨[], cache, 1, [], false⟩ := by
  obtain ⟨f, rfl⟩ : ∃ f, maxRetries = f + 1 := ⟨maxRetries - 1, by omega⟩
  simp [search_with_retry, hmiss, runAttempts, h0, hq]

/-- Witness for C2: a first attempt failing with a quota-flavoured message
makes exactly one attempt and returns the empty result set at once. -/
theorem C2_quota_terminal_witness :
    cacheLookup ([] : List (String × List SearchResult)) "k" = none ∧
    (fun _ => AttemptResult.err "SerpAPI Quota exceeded") 0 = .err "SerpAPI Quota exceeded" ∧
    isQuotaError "SerpAPI Quota exceeded" = true ∧
    1 ≤ max_retries ∧
    search_with_retry false max_retries base_delay [] "k"
      (fun _ => .err "SerpAPI Quota exceeded") = ⟨[], [], 1, [], false⟩ :=
  ⟨rfl, rfl, by decide, by decide,
    C2_quota_terminal max_retries base_delay [] "k"
      (fun _ => .err "SerpAPI Quota exceeded") "SerpAPI Quota exceeded"
      rfl rfl (by decide) (by decide)⟩

theorem roundTo4_eq_round (x : ℚ) : roundTo4 x = round (x * 10000) := by
  rw [round_eq, roundTo4]
  norm_num
  rfl

/- Counterexample to C4 as stated: two locations with the same query and
coordinates that agree after rounding to four decimal places nevertheless
derive different search cache keys, because generate_cache_key fingerprints
the full-precision coordinate components without any rounding. -/
unseal Rat.mul Rat.add in

theorem C4_counterexample :
    roundTo4 (mkRat 3617 100) = roundTo4 (mkRat 36170001 1000000) ∧
    generate_cache_key "x" (some (mkRat 3617 100, mkRat (-11514) 100)) ≠
      generate_cache_key "x" (some (mkRat 36170001 1000000, mkRat (-11514) 100)) := by
  constructor
  · decide
  · decide

/-- C4 amended: cache-key derivation is deterministic in the exact logical
request. The contract key is latitude and longitude rounded to four decimal
places concatenated with the radius, so coordinates with identical
four-decimal rounding and the same radius give identical contract keys; the
search key is the query string concatenated with the exact, unrounded
coordinate components, hashed, so identical query and identical exact
coordinates give identical search keys, while identical rounding alone does
not suffice for the search key. -/
theorem C4_cache_keys (lat lon lat2 lon2 radius : ℚ) (q : String)
    (c c2 : Option (ℚ × ℚ))
    (h1 : roundTo4 lat = roundTo4 lat2) (h2 : roundTo4 lon = roundTo4 lon2)
    (h3 : c = c2) :
    get_cache_key lat lon radius = get_cache_key lat2 lon2 radius ∧
    generate_cache_key q c = generate_cache_key q c2 ∧
    get_cache_key lat lon radius = format4 lat ++ "_" ++ format4 lon ++ "_" ++ ratRepr radius ∧
    generate_cache_key q c = digest (q ++ coordsSuffix c) := by
  refine ⟨?_, by rw [h3], rfl, rfl⟩
  unfold get_cache_key format4
  rw [h1, h2]

/- Witness for C4 amended at two distinct rationals with equal rounding:
the rounding hypotheses are discharged at concrete values where the
coordinates differ, so the contract-key congruence is not vacuous. -/
unseal Rat.mul Rat.add in

theorem C4_cache_keys_witness :
    roundTo4 (mkRat 3617 100) = roundTo4 (mkRat 36170001 1000000) ∧
    roundTo4 (mkRat (-11514) 100) = roundTo4 (mkRat (-11514) 100) ∧
    (some (mkRat 1 2, mkRat 1 2) : Option (ℚ × ℚ)) = some (mkRat 1 2, mkRat 1 2) ∧
    (get_cache_key (mkRat 3617 100) (mkRat (-11514) 100) (mkRat 50 1) =
       get_cache_key (mkRat 36170001 1000000) (mkRat (-11514) 100) (mkRat 50 1) ∧
     generate_cache_key "q" (some (mkRat 1 2, mkRat 1 2)) =
       generate_cache_key "q" (some (mkRat 1 2, mkRat 1 2)) ∧
     get_cache_key (mkRat 3617 100) (mkRat (-11514) 100) (mkRat 50 1) =
       format4 (mkRat 3617 100) ++ "_" ++ format4 (mkRat (-11514) 100) ++ "_" ++
         ratRepr (mkRat 50 1) ∧
     generate_cache_key "q" (some (mkRat 1 2, mkRat 1 2)) =
       digest ("q" ++ coordsSuffix (some (mkRat 1 2, mkRat 1 2)))) :=
  ⟨by decide, rfl, rfl,
    C4_cache_keys (mkRat 3617 100) (mkRat (-11514) 100) (mkRat 36170001 1000000)
      (mkRat (-11514) 100) (mkRat 50 1) "q" (some (mkRat 1 2, mkRat 1 2))
      (some (mkRat 1 2, mkRat 1 2)) (by decide) rfl rfl⟩

/-- C9: search-query construction is a pure, deterministic function of the
location record yielding exactly one query string per location, and that
query is precisely the one the claim describes: first two meaningful
tokens, else the single one, else the raw name, plus the fixed
jurisdiction qualifier. -/
theorem C9_query_builder (location_name : String) :
    generate_search_queries location_name = [claimQueryC9 location_name] := by
  unfold generate_search_queries claimQueryC9
  have hfil : ((nameTokens location_name).filter (fun w => decide (2 < w.length))).filter
      (fun w => !(stopwords.contains (lowerStr w))) = meaningfulWords location_name := by
    rw [List.filter_filter]
    unfold meaningfulWords
    congr 1
    funext a
    exact Bool.and_comm _ _
  rw [hfil]
  generalize meaningfulWords location_name = ws
  rcases ws with _ | ⟨w0, _ | ⟨w1, rest⟩⟩ <;> rfl

/-- C6: the locality filter keeps a record if and only if the record is in
the raw result set, its ZIP has at least three characters, and the
three-character prefix is in the allow-list; a record lacking a usable ZIP
is excluded, and the records a successful fetch caches and hands onward are
exactly the filtered ones, so nothing outside the allow-list reaches the
input of the analysis. -/
theorem C6_zip_filter (rs : List ContractRecord) (r : ContractRecord) :
    (r ∈ filterByZip rs ↔
      r ∈ rs ∧ 3 ≤ r.zip.data.length ∧ zip3 r.zip ∈ zipAllowList) ∧
    (r.zip = "" → r ∉ filterByZip rs) ∧
    (∀ (cache : List (String × List ContractRecord)) (lat lon radius : ℚ)
        (raw : List ContractRecord),
      (search_contracts_by_location true cache lat lon radius (.response 200 raw)).results =
        filterByZip raw) := by
  refine ⟨?_, ?_, ?_⟩
  · simp [filterByZip, List.mem_filter, keepsRecord, and_assoc]
  · intro hz hmem
    rw [filterByZip, List.mem_filter, keepsRecord] at hmem
    have := hmem.2
    rw [hz] at this
    simp at this
  · intro cache lat lon radius raw
    simp [search_contracts_by_location, fetchContracts]

/- Witness for C6 at a concrete raw result set: one record with a Las
Vegas prefix is kept, one with an out-of-area prefix and one with an empty
ZIP are dropped. -/
theorem C6_zip_filter_witness :
    ((⟨"acme", 5, "89101"⟩ : ContractRecord) ∈
        filterByZip [⟨"acme", 5, "89101"⟩, ⟨"basin", 7, "90210"⟩, ⟨"cove", 9, ""⟩] ↔
      (⟨"acme", 5, "89101"⟩ : ContractRecord) ∈
          [⟨"acme", 5, "89101"⟩, ⟨"basin", 7, "90210"⟩, (⟨"cove", 9, ""⟩ : ContractRecord)] ∧
        3 ≤ ("89101" : String).data.length ∧ zip3 "89101" ∈ zipAllowList) ∧
    ((⟨"cove", 9, ""⟩ : ContractRecord).zip = "" →
      (⟨"cove", 9, ""⟩ : ContractRecord) ∉
        filterByZip [⟨"acme", 5, "89101"⟩, ⟨"basin", 7, "90210"⟩, ⟨"cove", 9, ""⟩]) ∧
    (∀ (cache : List (String × List ContractRecord)) (lat lon radius : ℚ)
        (raw : List ContractRecord),
      (search_contracts_by_location true cache lat lon radius (.response 200 raw)).results =
        filterByZip raw) :=
  ⟨(C6_zip_filter [⟨"acme", 5, "89101"⟩, ⟨"basin", 7, "90210"⟩, ⟨"cove", 9, ""⟩]
      ⟨"acme", 5, "89101"⟩).1,
   (C6_zip_filter [⟨"acme", 5, "89101"⟩, ⟨"basin", 7, "90210"⟩, ⟨"cove", 9, ""⟩]
      ⟨"cove", 9, ""⟩).2.1,
   (C6_zip_filter [] ⟨"acme", 5, "89101"⟩).2.2⟩

/-- C7: when bust-cache mode is active the durable cache is loaded as
empty, the search client reaches the network even for a previously cached
key, and a successful attempt still persists the fresh entry, refreshing it
in the store; the contract client likewise refetches and re-caches under
bust-cache; when bust-cache is inactive, a get for a present key returns
the stored value with zero network attempts and no write, for both
clients. -/
theorem C7_bust_cache (stored cache : List (String × List SearchResult))
    (key : String) (v : List SearchResult) (maxRetries baseDelay : Nat)
    (att : Nat → AttemptResult) (rs : List RawResult)
    (ccache : List (String × List ContractRecord)) (lat lon radius : ℚ)
    (craw : List ContractRecord) (cv : List ContractRecord)
    (hv : cacheLookup cache key = some v)
    (h0 : att 0 = .ok rs)
    (hm : 1 ≤ maxRetries)
    (hcv : cacheLookup ccache (get_cache_key lat lon radius) = some cv) :
    load_cache true stored = [] ∧
    search_with_retry true maxRetries baseDelay cache key att =
      ⟨formatResults rs, cacheInsert key (formatResults rs) cache, 1, [], true⟩ ∧
    search_with_retry false maxRetries baseDelay cache key att =
      ⟨v, cache, 0, [], false⟩ ∧
    search_contracts_by_location true ccache lat lon radius (.response 200 craw) =
      ⟨filterByZip craw,
        cacheInsert (get_cache_key lat lon radius) (filterByZip craw) ccache, true, true⟩ ∧
    search_contracts_by_location false ccache lat lon radius (.response 200 craw) =
      ⟨cv, ccache, false, false⟩ := by
  obtain ⟨f, rfl⟩ : ∃ f, maxRetries = f + 1 := ⟨maxRetries - 1, by omega⟩
  refine ⟨rfl, ?_, ?_, ?_, ?_⟩
  · simp [search_with_retry, runAttempts, h0]
  · simp [search_with_retry, hv]
  · simp [search_contracts_by_location, fetchContracts]
  · simp [search_contracts_by_location, hcv]

/- Witness for C7: a cache holding one entry for the key, a first attempt
that succeeds, and a contract cache holding an entry for the derived key. -/
theorem C7_bust_cache_witness :
    cacheLookup [("k", [(⟨"t", "l", "b"⟩ : SearchResult)])] "k" =
      some [(⟨"t", "l", "b"⟩ : SearchResult)] ∧
    (fun _ => AttemptResult.ok []) 0 = AttemptResult.ok [] ∧
    1 ≤ max_retries ∧
    cacheLookup [(get_cache_key (mkRat 1 2) (mkRat 1 2) (mkRat 50 1), [])]
      (get_cache_key (mkRat 1 2) (mkRat 1 2) (mkRat 50 1)) =
      some ([] : List ContractRecord) ∧
    (load_cache true [("s", [(⟨"t", "l", "b"⟩ : SearchResult)])] = [] ∧
     search_with_retry true max_retries base_delay
         [("k", [(⟨"t", "l", "b"⟩ : SearchResult)])] "k" (fun _ => .ok []) =
       ⟨formatResults [], cacheInsert "k" (formatResults [])
           [("k", [(⟨"t", "l", "b"⟩ : SearchResult)])], 1, [], true⟩ ∧
     search_with_retry false max_retries base_delay
         [("k", [(⟨"t", "l", "b"⟩ : SearchResult)])] "k" (fun _ => .ok []) =
       ⟨[(⟨"t", "l", "b"⟩ : SearchResult)],
         [("k", [(⟨"t", "l", "b"⟩ : SearchResult)])], 0, [], false⟩ ∧
     search_contracts_by_location true
         [(get_cache_key (mkRat 1 2) (mkRat 1 2) (mkRat 50 1), [])]
         (mkRat 1 2) (mkRat 1 2) (mkRat 50 1) (.response 200 []) =
       ⟨filterByZip [],
         cacheInsert (get_cache_key (mkRat 1 2) (mkRat 1 2) (mkRat 50 1))
           (filterByZip []) [(get_cache_key (mkRat 1 2) (mkRat 1 2) (mkRat 50 1), [])],
         true, true⟩ ∧
     search_contracts_by_location false
         [(get_cache_key (mkRat 1 2) (mkRat 1 2) (mkRat 50 1), [])]
         (mkRat 1 2) (mkRat 1 2) (mkRat 50 1) (.response 200 []) =
       ⟨[], [(get_cache_key (mkRat 1 2) (mkRat 1 2) (mkRat 50 1), [])],
         false, false⟩) := by
  refine ⟨by simp [cacheLookup], rfl, by decide, by simp [cacheLookup], ?_⟩
  exact C7_bust_cache [("s", [⟨"t", "l", "b"⟩])] [("k", [⟨"t", "l", "b"⟩])] "k"
    [⟨"t", "l", "b"⟩] max_retries base_delay (fun _ => .ok []) []
    [(get_cache_key (mkRat 1 2) (mkRat 1 2) (mkRat 50 1), [])]
    (mkRat 1 2) (mkRat 1 2) (mkRat 50 1) [] []
    (by simp [cacheLookup]) rfl (by decide) (by simp [cacheLookup])

/-- C10: failures are never cached. For the search client, whenever no
attempt succeeds (any mix of retryable errors, a terminal quota error, or
exhaustion of the ceiling) and the key was not already cached, the call
returns the empty result set, leaves the cache exactly as it was and writes
nothing to the store; for the contract client, a non-200 response and a
request exception each return the empty result set with the cache
unchanged and no store write. -/
theorem C10_failures_not_cached (maxRetries baseDelay : Nat)
    (cache : List (String × List SearchResult)) (key : String)
    (att : Nat → AttemptResult)
    (ccache : List (String × List ContractRecord)) (lat lon radius : ℚ)
    (status : Nat) (craw : List ContractRecord) (msg : String)
    (hmiss : cacheLookup cache key = none)
    (hfail : ∀ i rs, att i ≠ .ok rs)
    (hcmiss : cacheLookup ccache (get_cache_key lat lon radius) = none)
    (hstatus : status ≠ 200) :
    (search_with_retry false maxRetries baseDelay cache key att).results = [] ∧
    (search_with_retry false maxRetries baseDelay cache key att).cache = cache ∧
    (search_with_retry false maxRetries baseDelay cache key att).cacheSaved = false ∧
    search_contracts_by_location false ccache lat lon radius (.response status craw) =
      ⟨[], ccache, true, false⟩ ∧
    search_contracts_by_location false ccache lat lon radius (.requestException msg) =
      ⟨[], ccache, true, false⟩ := by
  obtain ⟨h1, h2, h3⟩ := runAttempts_noSuccess att baseDelay key cache hfail maxRetries 0
  refine ⟨?_, ?_, ?_, ?_, ?_⟩
  · simpa [search_with_retry, hmiss] using h1
  · simpa [search_with_retry, hmiss] using h2
  · simpa [search_with_retry, hmiss] using h3
  · simp [search_contracts_by_location, hcmiss, fetchContracts, hstatus]
  · simp [search_contracts_by_location, hcmiss, fetchContracts]

/- Witness for C10: empty caches, a first attempt failing terminally with a
quota error and later attempts failing retryably, and a 500 contract
response. -/
theorem C10_failures_not_cached_witness :
    cacheLookup ([] : List (String × List SearchResult)) "k" = none ∧
    (∀ i rs, (fun i => if i = 0 then AttemptResult.err "Quota exceeded"
        else AttemptResult.err "boom") i ≠ .ok rs) ∧
    cacheLookup ([] : List (String × List ContractRecord))
      (get_cache_key (mkRat 1 2) (mkRat 1 2) (mkRat 50 1)) = none ∧
    (500 : Nat) ≠ 200 ∧
    ((search_with_retry false max_retries base_delay [] "k"
        (fun i => if i = 0 then .err "Quota exceeded" else .err "boom")).results = [] ∧
     (search_with_retry false max_retries base_delay [] "k"
        (fun i => if i = 0 then .err "Quota exceeded" else .err "boom")).cache = [] ∧
     (search_with_retry false max_retries base_delay [] "k"
        (fun i => if i = 0 then .err "Quota exceeded" else .err "boom")).cacheSaved = false ∧
     search_contracts_by_location false [] (mkRat 1 2) (mkRat 1 2) (mkRat 50 1)
        (.response 500 []) = ⟨[], [], true, false⟩ ∧
     search_contracts_by_location false [] (mkRat 1 2) (mkRat 1 2) (mkRat 50 1)
        (.requestException "timeout") = ⟨[], [], true, false⟩) := by
  refine ⟨rfl, ?_, rfl, by decide, ?_⟩
  · intro i rs
    cases i <;> simp
  · exact C10_failures_not_cached max_retries base_delay [] "k"
      (fun i => if i = 0 then .err "Quota exceeded" else .err "boom")
      [] (mkRat 1 2) (mkRat 1 2) (mkRat 50 1) 500 [] "timeout"
      rfl (by intro i rs; cases i <;> simp) rfl (by decide)

/-- C5: the analysis of the empty record list is exactly the record with
zero contracts, zero total value, no top contractors and the fixed summary
line. -/
theorem C5_empty_analysis :
    analyze_contracts [] = ⟨0, 0, [], "No contracts found in this area."⟩ := rfl

/-- C8: no error of a single location aborts the batch: every location
contributes exactly one outcome in order, a failing location contributes
the degraded-but-valid record with zero totals and the explanatory summary
line, and a succeeding location contributes its analysis fields. -/
theorem C8_degraded_batch (steps : List (Except String ContractAnalysis)) :
    (processLocations steps).length = steps.length ∧
    (∀ (i : Nat) (e : String), steps[i]? = some (Except.error e) →
      (processLocations steps)[i]? =
        some (⟨some e, 0, 0, [],
          "Error analyzing contracts for this location."⟩ : LocationOutcome)) ∧
    (∀ (i : Nat) (a : ContractAnalysis), steps[i]? = some (Except.ok a) →
      (processLocations steps)[i]? =
        some (⟨none, a.total_contracts, a.total_value, a.top_contractors,
          a.summary⟩ : LocationOutcome)) := by
  refine ⟨List.length_map _ _, ?_, ?_⟩
  · intro i e h
    simp [processLocations, List.getElem?_map, h, analyze_contracts_for_location,
      degradedOutcome]
  · intro i a h
    simp [processLocations, List.getElem?_map, h, analyze_contracts_for_location]

/- Witness for C8 at a two-location batch whose first location fails: the
failing location still appears, degraded, and the batch keeps its length. -/
theorem C8_degraded_batch_witness :
    ([.error "connection reset", .ok (analyze_contracts [])] :
        List (Except String ContractAnalysis))[0]? =
      some (Except.error "connection reset") ∧
    (processLocations [.error "connection reset", .ok (analyze_contracts [])])[0]? =
      some (⟨some "connection reset", 0, 0, [],
        "Error analyzing contracts for this location."⟩ : LocationOutcome) ∧
    (processLocations [.error "connection reset", .ok (analyze_contracts [])]).length = 2 :=
  ⟨rfl,
    (C8_degraded_batch [.error "connection reset", .ok (analyze_contracts [])]).2.1 0
      "connection reset" rfl,
    rfl⟩

theorem charEq_of_toNat {a b : Char} (h : a.toNat = b.toNat) : a = b :=
  Char.ext (UInt32.toNat.inj h)

theorem ltChars_cons_iff (x y : Char) (xs ys : List Char) :
    ltChars (x :: xs) (y :: ys) = true ↔
      x.toNat < y.toNat ∨ (x.toNat = y.toNat ∧ ltChars xs ys = true) := by
  simp only [ltChars]
  by_cases h1 : x.toNat < y.toNat
  · simp [h1]
  · by_cases h2 : y.toNat < x.toNat
    · simp [h1, h2]
      omega
    · have he : x.toNat = y.toNat := by omega
      simp [h1, h2, he]

theorem ltChars_trans : ∀ a b c : List Char,
    ltChars a b = true → ltChars b c = true → ltChars a c = true := by
  intro a
  induction a with
  | nil =>
    intro b c h1 h2
    cases c with
    | nil =>
      cases b with
      | nil => exact h1
      | cons y ys => simp [ltChars] at h2
    | cons z zs => simp [ltChars]
  | cons x xs ih =>
    intro b c h1 h2
    cases b with
    | nil => simp [ltChars] at h1
    | cons y ys =>
      cases c with
      | nil => simp [ltChars] at h2
      | cons z zs =>
        rw [ltChars_cons_iff] at h1 h2 ⊢
        rcases h1 with h1 | ⟨e1, l1⟩ <;> rcases h2 with h2 | ⟨e2, l2⟩
        · exact .inl (by omega)
        · exact .inl (by omega)
        · exact .inl (by omega)
        · exact .inr ⟨by omega, ih ys zs l1 l2⟩

theorem ltChars_eq_of_not : ∀ a b : List Char,
    ltChars a b = false → ltChars b a = false → a = b := by
  intro a
  induction a with
  | nil =>
    intro b h1 _
    cases b with
    | nil => rfl
    | cons y ys => simp [ltChars] at h1
  | cons x xs ih =>
    intro b h1 h2
    cases b with
    | nil => simp [ltChars] at h2
    | cons y ys =>
      have H1 : ¬(x.toNat < y.toNat ∨ (x.toNat = y.toNat ∧ ltChars xs ys = true)) :=
        fun hc => absurd ((ltChars_cons_iff x y xs ys).mpr hc) (by simp [h1])
      have H2 : ¬(y.toNat < x.toNat ∨ (y.toNat = x.toNat ∧ ltChars ys xs = true)) :=
        fun hc => absurd ((ltChars_cons_iff y x ys xs).mpr hc) (by simp [h2])
      push_neg at H1 H2
      have he : x.toNat = y.toNat := by omega
      have hxs : ltChars xs ys = false := by
        have := H1.2 he
        simpa using this
      have hys : ltChars ys xs = false := by
        have := H2.2 he.symm
        simpa using this
      rw [charEq_of_toNat he, ih ys hxs hys]

theorem strLt_trans {a b c : String} (h1 : strLt a b = true) (h2 : strLt b c = true) :
    strLt a c = true :=
  ltChars_trans a.data b.data c.data h1 h2

theorem strLt_eq_of_not {a b : String} (h1 : strLt a b = false) (h2 : strLt b a = false) :
    a = b := by
  have h := ltChars_eq_of_not a.data b.data h1 h2
  cases a with
  | mk da =>
    cases b with
    | mk db => exact congrArg String.mk h

theorem mem_insertAsc {x y : String} : ∀ l : List String,
    y ∈ insertAsc x l ↔ y = x ∨ y ∈ l := by
  intro l
  induction l with
  | nil => simp [insertAsc]
  | cons z zs ih =>
    simp only [insertAsc]
    by_cases h : strLt x z = true
    · simp [h]
    · simp only [h, Bool.false_eq_true, if_false, List.mem_cons, ih]
      tauto

theorem mem_sortNames {y : String} : ∀ l : List String, y ∈ sortNames l ↔ y ∈ l := by
  intro l
  induction l with
  | nil => simp [sortNames]
  | cons x xs ih => simp [sortNames, mem_insertAsc, ih]

theorem insertAsc_pairwise {x : String} : ∀ l : List String,
    (∀ y ∈ l, x ≠ y) → l.Pairwise (fun a b => strLt a b = true) →
    (insertAsc x l).Pairwise (fun a b => strLt a b = true) := by
  intro l
  induction l with
  | nil => intro _ _; simp [insertAsc]
  | cons y ys ih =>
    intro hne hp
    rw [List.pairwise_cons] at hp
    obtain ⟨hy, hys⟩ := hp
    simp only [insertAsc]
    by_cases h : strLt x y = true
    · rw [if_pos h]
      refine List.Pairwise.cons ?_ (List.Pairwise.cons hy hys)
      intro z hz
      rcases List.mem_cons.mp hz with rfl | hz
      · exact h
      · exact strLt_trans h (hy z hz)
    · rw [if_neg h]
      refine List.Pairwise.cons ?_ (ih (fun z hz => hne z (by simp [hz])) hys)
      intro z hz
      rcases (mem_insertAsc ys).mp hz with heq | hz
      · rw [heq]
        have hxy : x ≠ y := hne y (by simp)
        have hxf : strLt x y = false := by simpa using h
        cases hyx : strLt y x
        · exact absurd (strLt_eq_of_not hxf hyx) hxy
        · rfl
      · exact hy z hz

theorem sortNames_pairwise : ∀ l : List String, l.Nodup →
    (sortNames l).Pairwise (fun a b => strLt a b = true) := by
  intro l
  induction l with
  | nil => intro _; simp [sortNames]
  | cons x xs ih =>
    intro hnd
    rw [List.nodup_cons] at hnd
    refine insertAsc_pairwise _ ?_ (ih hnd.2)
    intro y hy he
    exact hnd.1 (he ▸ (mem_sortNames xs).mp hy)

theorem uniqueNames_nodup : ∀ rs : List ContractRecord, (uniqueNames rs).Nodup := by
  intro rs
  induction rs with
  | nil => simp [uniqueNames]
  | cons r rs ih =>
    simp only [uniqueNames]
    rw [List.nodup_cons]
    refine ⟨?_, ih.filter _⟩
    intro hmem
    have := (List.mem_filter.mp hmem).2
    simp at this

theorem mem_uniqueNames {n : String} : ∀ rs : List ContractRecord,
    (n ∈ uniqueNames rs ↔ n ∈ rs.map ContractRecord.recipientName) := by
  intro rs
  induction rs with
  | nil => simp [uniqueNames]
  | cons r rs ih =>
    simp only [uniqueNames, List.map_cons, List.mem_cons]
    by_cases h : n = r.recipientName
    · simp [h]
    · simp [List.mem_filter, ih, h]

theorem mem_insertDesc {x a : String × ℚ} : ∀ l : List (String × ℚ),
    a ∈ insertDesc x l ↔ a = x ∨ a ∈ l := by
  intro l
  induction l with
  | nil => simp [insertDesc]
  | cons y ys ih =>
    simp only [insertDesc]
    by_cases h : y.2 ≤ x.2
    · simp [h]
    · simp only [h, if_false, List.mem_cons, ih]
      tauto

theorem mem_sortDesc {a : String × ℚ} : ∀ l : List (String × ℚ),
    a ∈ sortDesc l ↔ a ∈ l := by
  intro l
  induction l with
  | nil => simp [sortDesc]
  | cons x xs ih => simp [sortDesc, mem_insertDesc, ih]

theorem insertDesc_pairwise {x : String × ℚ} : ∀ l : List (String × ℚ),
    (∀ y ∈ l, strLt x.1 y.1 = true) → l.Pairwise pairBefore →
    (insertDesc x l).Pairwise pairBefore := by
  intro l
  induction l with
  | nil => intro _ _; simp [insertDesc]
  | cons y ys ih =>
    intro hx hp
    rw [List.pairwise_cons] at hp
    obtain ⟨hy, hys⟩ := hp
    simp only [insertDesc]
    by_cases h : y.2 ≤ x.2
    · rw [if_pos h]
      refine List.Pairwise.cons ?_ (List.Pairwise.cons hy hys)
      intro z hz
      rcases List.mem_cons.mp hz with heq | hz
      · rw [heq]
        rcases lt_or_eq_of_le h with hlt | heq2
        · exact .inl hlt
        · exact .inr ⟨heq2.symm, hx y (by simp)⟩
      · rcases hy z hz with hlt | ⟨heq, _⟩
        · exact .inl (lt_of_lt_of_le hlt h)
        · rcases lt_or_eq_of_le h with hlt | heq2
          · exact .inl (by rw [← heq]; exact hlt)
          · exact .inr ⟨by rw [← heq2, heq], hx z (by simp [hz])⟩
    · rw [if_neg h]
      have hxy : x.2 < y.2 := not_le.mp h
      refine List.Pairwise.cons ?_ (ih (fun z hz => hx z (by simp [hz])) hys)
      intro z hz
      rcases (mem_insertDesc ys).mp hz with heq | hz
      · rw [heq]
        exact .inl hxy
      · exact hy z hz

theorem sortDesc_pairwise : ∀ l : List (String × ℚ),
    l.Pairwise (fun a b => strLt a.1 b.1 = true) → (sortDesc l).Pairwise pairBefore := by
  intro l
  induction l with
  | nil => intro _; simp [sortDesc]
  | cons x xs ih =>
    intro hp
    rw [List.pairwise_cons] at hp
    refine insertDesc_pairwise _ ?_ (ih hp.2)
    intro y hy
    exact hp.1 y ((mem_sortDesc xs).mp hy)

theorem groupedSeries_pairwise (rs : List ContractRecord) :
    (groupedSeries rs).Pairwise (fun a b => strLt a.1 b.1 = true) := by
  unfold groupedSeries
  refine List.Pairwise.map _ ?_ (sortNames_pairwise _ (uniqueNames_nodup rs))
  intro a b h
  exact h

theorem mem_groupedSeries {p : String × ℚ} (rs : List ContractRecord)
    (h : p ∈ groupedSeries rs) :
    p.1 ∈ rs.map ContractRecord.recipientName ∧ p.2 = sumFor rs p.1 := by
  unfold groupedSeries at h
  obtain ⟨n, hn, he⟩ := List.mem_map.mp h
  cases he
  exact ⟨(mem_uniqueNames rs).mp ((mem_sortNames _).mp hn), rfl⟩

theorem groupedSeries_mem {n : String} (rs : List ContractRecord)
    (h : n ∈ rs.map ContractRecord.recipientName) :
    (n, sumFor rs n) ∈ groupedSeries rs := by
  unfold groupedSeries
  exact List.mem_map_of_mem _ ((mem_sortNames _).mpr ((mem_uniqueNames rs).mpr h))

/- Counterexample to C3 as stated: in exC3 the recipients zephyr and apex
are tied at one hundred, zephyr first-encountered; only one of them fits
into the five entries, and the aggregation keeps apex, the alphabetically
smaller name, because the grouped series it sorts is keyed in ascending
name order, not first-encountered order. -/
unseal Rat.mul Rat.add in

theorem C3_counterexample :
    (analyze_contracts exC3).top_contractors =
      [("basin", 500), ("crest", 400), ("delta", 300), ("ember", 200), ("apex", 100)] ∧
    topContractorsFirstSeen exC3 =
      [("basin", 500), ("crest", 400), ("delta", 300), ("ember", 200), ("zephyr", 100)] ∧
    (analyze_contracts exC3).top_contractors ≠ topContractorsFirstSeen exC3 := by
  refine ⟨by decide, by decide, by decide⟩

/-- C3 amended: for every non-empty record list, the total value is the
sum of the award amounts over the input; the top contractors are at most
five entries, each a recipient of the input carrying its grouped sum,
ordered descending by value; every grouped recipient left out is either
strictly below every kept entry or tied with it and alphabetically after
it — so ties are broken by ascending recipient name (the order of the
name-sorted grouped series), not by first-encountered input order. -/
theorem C3_aggregation (rs : List ContractRecord) (h : rs ≠ []) :
    (analyze_contracts rs).total_value = (rs.map ContractRecord.awardAmount).sum ∧
    (analyze_contracts rs).top_contractors.length ≤ 5 ∧
    (∀ p ∈ (analyze_contracts rs).top_contractors,
      p.1 ∈ rs.map ContractRecord.recipientName ∧ p.2 = sumFor rs p.1) ∧
    (analyze_contracts rs).top_contractors.Pairwise pairBefore ∧
    (∀ n ∈ rs.map ContractRecord.recipientName,
      n ∉ (analyze_contracts rs).top_contractors.map Prod.fst →
      ∀ p ∈ (analyze_contracts rs).top_contractors,
        sumFor rs n < p.2 ∨ (sumFor rs n = p.2 ∧ strLt p.1 n = true)) := by
  cases rs with
  | nil => exact absurd rfl h
  | cons c cs =>
    have hTC : (analyze_contracts (c :: cs)).top_contractors = topContractors (c :: cs) := rfl
    have hTV : (analyze_contracts (c :: cs)).total_value = totalValue (c :: cs) := rfl
    rw [hTC, hTV]
    have hsorted : (sortDesc (groupedSeries (c :: cs))).Pairwise pairBefore :=
      sortDesc_pairwise _ (groupedSeries_pairwise (c :: cs))
    refine ⟨rfl, ?_, ?_, ?_, ?_⟩
    · rw [topContractors, List.length_take]
      exact min_le_left _ _
    · intro p hp
      exact mem_groupedSeries (c :: cs) ((mem_sortDesc _).mp (List.mem_of_mem_take hp))
    · exact List.Pairwise.sublist (List.take_sublist _ _) hsorted
    · intro n hn hnot p hp
      have hg : (n, sumFor (c :: cs) n) ∈ sortDesc (groupedSeries (c :: cs)) :=
        (mem_sortDesc _).mpr (groupedSeries_mem (c :: cs) hn)
      have hsplit := List.take_append_drop 5 (sortDesc (groupedSeries (c :: cs)))
      have hpw : List.Pairwise pairBefore
          ((sortDesc (groupedSeries (c :: cs))).take 5 ++
            (sortDesc (groupedSeries (c :: cs))).drop 5) := by
        rw [hsplit]
        exact hsorted
      have hcross := (List.pairwise_append.mp hpw).2.2
      have hg2 : (n, sumFor (c :: cs) n) ∈
          (sortDesc (groupedSeries (c :: cs))).take 5 ++
            (sortDesc (groupedSeries (c :: cs))).drop 5 := by
        rw [hsplit]
        exact hg
      rcases List.mem_append.mp hg2 with hin | hin
      · exact absurd (List.mem_map_of_mem Prod.fst hin) hnot
      · rcases hcross p hp (n, sumFor (c :: cs) n) hin with h1 | ⟨h2, h3⟩
        · exact .inl h1
        · exact .inr ⟨h2.symm, h3⟩

/- Witness for C3 amended at exC3: the non-emptiness hypothesis is
discharged concretely and the conclusion instantiated at exC3. -/
theorem C3_aggregation_witness :
    exC3 ≠ [] ∧
    ((analyze_contracts exC3).total_value = (exC3.map ContractRecord.awardAmount).sum ∧
     (analyze_contracts exC3).top_contractors.length ≤ 5 ∧
     (∀ p ∈ (analyze_contracts exC3).top_contractors,
       p.1 ∈ exC3.map ContractRecord.recipientName ∧ p.2 = sumFor exC3 p.1) ∧
     (analyze_contracts exC3).top_contractors.Pairwise pairBefore ∧
     (∀ n ∈ exC3.map ContractRecord.recipientName,
       n ∉ (analyze_contracts exC3).top_contractors.map Prod.fst →
       ∀ p ∈ (analyze_contracts exC3).top_contractors,
         sumFor exC3 n < p.2 ∨ (sumFor exC3 n = p.2 ∧ strLt p.1 n = true))) :=
  ⟨by decide, C3_aggregation exC3 (by decide)⟩

end MapSearch
